import Mathlib

/-!
Verification of the Risk-Profiling-System's suitability-classification and
portfolio-computation pipeline.  The definitions below are shallow embeddings
of the TypeScript source: numbers are rationals (exact arithmetic standing in
for JS `number`), question/option records keep the source field names, and
each route handler or event handler becomes a pure Lean function mirroring
the source line by line.
-/

namespace RiskProfiling

/-! ## String utilities

JS `String.prototype.includes` — substring containment on the character
list — and `toLowerCase` as ASCII lowering. -/

/-- Character-list version of "needle is an initial segment of hay". -/
def startsWithChars : List Char → List Char → Bool
  | _, [] => true
  | [], _ :: _ => false
  | h :: hs, c :: cs => h == c && startsWithChars hs cs

/-- Character-list version of substring containment. -/
def charListHas (hay needle : List Char) : Bool :=
  match hay with
  | [] => needle == []
  | _ :: t => startsWithChars hay needle || charListHas t needle

/-- JS `s.includes(sub)`. -/
def strIncludes (s sub : String) : Bool :=
  charListHas s.data sub.data

/-- ASCII lowering of one character (the question texts are ASCII, so this
is `toLowerCase` restricted to the alphabet actually used). -/
def charLower (c : Char) : Char :=
  if 'A' ≤ c ∧ c ≤ 'Z' then Char.ofNat (c.toNat + 32) else c

/-- JS `s.toLowerCase()` on ASCII text. -/
def strLower (s : String) : String :=
  ⟨s.data.map charLower⟩

/-! ## Questionnaire data model

From `risk_questions` / `risk_answer_options` rows as used by
`POST /api/questionnaires/submit` (server/routes/questionnaires.ts). -/

structure ROption where
  id : Nat
  score_value : ℚ
  deriving Repr, DecidableEq

structure RQuestion where
  id : Nat
  question_text : String
  weight : ℚ
  options : List ROption
  deriving Repr, DecidableEq

/-- One entry of `payload.responses`. -/
structure RResponse where
  question_id : Nat
  selected_option_id : Nat
  deriving Repr, DecidableEq

/-- `payload.responses.find(r => r.question_id === q.id)`. -/
def findResponse (rs : List RResponse) (qid : Nat) : Option RResponse :=
  rs.find? (fun r => r.question_id == qid)

/-- `qOptions.find(o => o.id === userResponse.selected_option_id)`. -/
def findOption (q : RQuestion) (r : RResponse) : Option ROption :=
  q.options.find? (fun o => o.id == r.selected_option_id)

/-- `Math.max(...qOptions.map(o => o.score_value))` for a nonempty option
list (the schema guarantees at least one option per question; the empty
case is mapped to 0). -/
def scoreMax : List ℚ → ℚ
  | [] => 0
  | x :: xs => xs.foldl max x

/-- `maxOptScore` of a question. -/
def maxOptScore (q : RQuestion) : ℚ :=
  scoreMax (q.options.map (·.score_value))

/-- `(selectedOpt?.score_value || 0)` for the response to question `q`,
or 0 when the question is unanswered. -/
def respScoreValue (rs : List RResponse) (q : RQuestion) : ℚ :=
  match findResponse rs q.id with
  | some r => ((findOption q r).map (·.score_value)).getD 0
  | none => 0

/-- Whether question `q` has a response entry in the payload. -/
def answered (rs : List RResponse) (q : RQuestion) : Bool :=
  (findResponse rs q.id).isSome

/-! ## Scoring engine (`POST /submit`, step 2) -/

/-- `raw_score += (selectedOpt?.score_value || 0) * q.weight`, accumulated
over the questions that have a response (the loop skips the `raw_score`
update for unanswered questions). -/
def raw_score (qs : List RQuestion) (rs : List RResponse) : ℚ :=
  (qs.map (fun q => if answered rs q then respScoreValue rs q * q.weight else 0)).sum

/-- `max_score += maxOptScore * q.weight`, accumulated over every question
(also the unanswered ones). -/
def max_score (qs : List RQuestion) : ℚ :=
  (qs.map (fun q => maxOptScore q * q.weight)).sum

structure ScoreResult where
  raw : ℚ
  max : ℚ
  normalized : ℚ
  deriving Repr, DecidableEq

/-- The ScoreResult computed by the submit route:
`normalized_score = max_score > 0 ? raw_score / max_score : 0`. -/
def submitScore (qs : List RQuestion) (rs : List RResponse) : ScoreResult :=
  let raw := raw_score qs rs
  let mx := max_score qs
  ⟨raw, mx, if 0 < mx then raw / mx else 0⟩

/-- The submit route validates only the payload shape (client_id,
questionnaire_id, responses array present); any response list — also a
partial one — is scored and persisted, so a ScoreResult is always
produced. -/
def serverSubmit (qs : List RQuestion) (rs : List RResponse) : Option ScoreResult :=
  some (submitScore qs rs)

/-! ## Suitability classifier (`POST /submit`, step 3) -/

/-- `const text = q.question_text.toLowerCase()` followed by the keyword
test `text.includes('horizon') || ... || text.includes('years')`. -/
def isAbility (q : RQuestion) : Bool :=
  let text := strLower q.question_text
  strIncludes text "horizon" || strIncludes text "time" || strIncludes text "withdraw" ||
    strIncludes text "income" || strIncludes text "years"

/-- `text.includes('horizon') || text.includes('time')` — the knock-out
keyword test. -/
def horizonTime (q : RQuestion) : Bool :=
  let text := strLower q.question_text
  strIncludes text "horizon" || strIncludes text "time"

/-- `ability_raw` accumulated over answered ability questions. -/
def ability_raw (qs : List RQuestion) (rs : List RResponse) : ℚ :=
  (qs.map (fun q =>
    if answered rs q && isAbility q then respScoreValue rs q * q.weight else 0)).sum

/-- `ability_max` accumulated over answered ability questions. -/
def ability_max (qs : List RQuestion) (rs : List RResponse) : ℚ :=
  (qs.map (fun q =>
    if answered rs q && isAbility q then maxOptScore q * q.weight else 0)).sum

/-- `willingness_raw` accumulated over answered non-ability questions. -/
def willingness_raw (qs : List RQuestion) (rs : List RResponse) : ℚ :=
  (qs.map (fun q =>
    if answered rs q && !isAbility q then respScoreValue rs q * q.weight else 0)).sum

/-- `willingness_max` accumulated over answered non-ability questions. -/
def willingness_max (qs : List RQuestion) (rs : List RResponse) : ℚ :=
  (qs.map (fun q =>
    if answered rs q && !isAbility q then maxOptScore q * q.weight else 0)).sum

/-- The per-question knock-out test: the question is answered, lies in the
ability partition, contains "horizon" or "time", and its selected option
(found among the question's options) has `score_value <= 1`. -/
def knockoutPred (rs : List RResponse) (q : RQuestion) : Bool :=
  match findResponse rs q.id with
  | some r =>
      isAbility q && horizonTime q &&
        (match findOption q r with
         | some o => decide (o.score_value ≤ 1)
         | none => false)
  | none => false

/-- `is_knockout_conservative`: set when some question passes the
per-question knock-out test. -/
def knockoutFlag (qs : List RQuestion) (rs : List RResponse) : Bool :=
  qs.any (knockoutPred rs)

/-- `willingness_score = willingness_max > 0 ? (willingness_raw / willingness_max) * 100 : 0`. -/
def willingness_score (qs : List RQuestion) (rs : List RResponse) : ℚ :=
  let mx := willingness_max qs rs
  if 0 < mx then willingness_raw qs rs / mx * 100 else 0

/-- `ability_score = ability_max > 0 ? (ability_raw / ability_max) * 100 : 0`. -/
def ability_score (qs : List RQuestion) (rs : List RResponse) : ℚ :=
  let mx := ability_max qs rs
  if 0 < mx then ability_raw qs rs / mx * 100 else 0

/-- Final category determination: knock-out wins, otherwise the two-boundary
rule on `suitability_score = Math.min(willingness_score, ability_score) / 100`. -/
def risk_category (qs : List RQuestion) (rs : List RResponse) : String :=
  if knockoutFlag qs rs then "Conservative"
  else
    let suitability := min (willingness_score qs rs) (ability_score qs rs) / 100
    if 35/100 < suitability ∧ suitability ≤ 65/100 then "Moderate"
    else if 65/100 < suitability then "Aggressive"
    else "Conservative"

/-! ## Well-formedness and completeness of a response set -/

/-- The selected score value of question `q`, when `q` is answered and the
selected option id resolves to one of the question's options. -/
def answeredScore (rs : List RResponse) (q : RQuestion) : Option ℚ :=
  (findResponse rs q.id).bind fun r => (findOption q r).map (·.score_value)

/-- A complete ResponseSet: every question has a response whose selected
option resolves within that question. -/
def Complete (qs : List RQuestion) (rs : List RResponse) : Prop :=
  ∀ q ∈ qs, (answeredScore rs q).isSome

/-- Schema invariants: positive-or-zero weights, at least one option per
question, non-negative integer score values (modelled as `0 ≤ score`). -/
def WellFormed (qs : List RQuestion) : Prop :=
  ∀ q ∈ qs, 0 ≤ q.weight ∧ q.options ≠ [] ∧ ∀ o ∈ q.options, 0 ≤ o.score_value

/-! ## Confidence aggregator (RiskQuestionnaireView.handleSubmit) -/

/-- `boundary_distance_score` from the client submit handler: distance of
the normalized score to the nearest classification boundary, scaled per
category. -/
def boundaryDistance (ns : ℚ) : ℚ :=
  if ns ≤ 35/100 then (35/100 - ns) / (35/100) * 100
  else if ns ≤ 65/100 then min (ns - 35/100) (65/100 - ns) / (15/100) * 100
  else (ns - 65/100) / (35/100) * 100

/-! ## IPS eligibility gate -/

/-- The scale normalization used by `POST /api/ips/generate`:
`score > 1 ? score / 100 : score`. -/
def normalizeConfidence (s : ℚ) : ℚ :=
  if 1 < s then s / 100 else s

/-- The generate route's accept/reject decision: it returns a 400 when
`!assessment.finalized_by_advisor` and a 400 when `normalizedScore < 0.65`,
and proceeds otherwise. -/
def generateEligible (finalized : Bool) (s : ℚ) : Bool :=
  finalized && !(normalizeConfidence s < 65/100)

/-- `isEligibleForIPS` from the advisor-side client modal:
`finalized_by_advisor && (score > 1 ? score >= 65 : score >= 0.65)`. -/
def isEligibleForIPS (finalized : Bool) (s : ℚ) : Bool :=
  finalized && (if 1 < s then decide ((65 : ℚ) ≤ s) else decide (65/100 ≤ s))

/-! ## Allocation builder -/

structure AllocationModel where
  Equity : ℚ
  Debt : ℚ
  Alternatives : ℚ
  Rebalance : String
  deriving Repr, DecidableEq

/-- `ALLOCATION_MODELS` lookup table (constants/allocationModels.ts); the
generate route indexes it by the assessment's category string and errors
out on a miss. -/
def ALLOCATION_MODELS : String → Option AllocationModel
  | "Conservative" => some ⟨30, 60, 10, "Semi-Annual"⟩
  | "Moderate" => some ⟨50, 40, 10, "Quarterly"⟩
  | "Aggressive" => some ⟨70, 20, 10, "Quarterly"⟩
  | _ => none

structure TargetAllocation where
  asset_class : String
  target_percent : ℚ
  lower_band : ℚ
  upper_band : ℚ
  deriving Repr, DecidableEq

/-- The hard-coded fallback allocation rows built from a model in
`POST /api/ips/generate`, bands at target ± 5 clamped to [0, 100]. -/
def baselineAllocations (m : AllocationModel) : List TargetAllocation :=
  [⟨"Equity", m.Equity, max 0 (m.Equity - 5), min 100 (m.Equity + 5)⟩,
   ⟨"Debt", m.Debt, max 0 (m.Debt - 5), min 100 (m.Debt + 5)⟩,
   ⟨"Alternatives", m.Alternatives, max 0 (m.Alternatives - 5), min 100 (m.Alternatives + 5)⟩]

/-- Allocation rows persisted by `POST /api/ips/generate`:
`aiResponse.target_allocations && aiResponse.target_allocations.length > 0 ?
aiResponse.target_allocations : [baseline rows]`. -/
def allocationsToPersist (aiAllocs : List TargetAllocation) (m : AllocationModel) :
    List TargetAllocation :=
  if aiAllocs.length > 0 then aiAllocs else baselineAllocations m

/-- Allocation rows persisted by `POST /api/ips/save`: the request's
`target_allocations` are inserted as given. -/
def saveAllocations (reqAllocs : List TargetAllocation) : List TargetAllocation :=
  reqAllocs

/-- Σ target_percent of an allocation set. -/
def sumTargets (allocs : List TargetAllocation) : ℚ :=
  (allocs.map (·.target_percent)).sum

/-! ## Assessment override (risk-assessments finalize route, dashboards) -/

structure Assessment where
  risk_category : String
  advisor_override_category : Option String
  finalized_by_advisor : Bool
  ai_confidence_score : ℚ
  deriving Repr, DecidableEq

/-- Category shown on the client dashboard:
`ips.risk_assessments.advisor_override_category || ips.risk_assessments.risk_category`. -/
def displayCategory (a : Assessment) : String :=
  (a.advisor_override_category).getD a.risk_category

/-- Category used by `POST /api/ips/generate` to index `ALLOCATION_MODELS`:
`const riskCategory = assessment.risk_category as RiskCategory`. -/
def genCategory (a : Assessment) : String :=
  a.risk_category

/-! ## Portfolio computation engine (PortfolioEditor.tsx, RebalanceModal) -/

/-- One editor holding row; `price` is `security.current_price` (0 when the
security or its price is missing). -/
structure EHolding where
  allocated_percent : ℚ
  allocated_amount : ℚ
  units : ℚ
  price : ℚ
  deriving Repr, DecidableEq

/-- `holdings.reduce((sum, h) => sum + h.allocated_amount, 0)`. -/
def sumAmounts (hs : List EHolding) : ℚ :=
  (hs.map (·.allocated_amount)).sum

/-- `holdings.reduce((sum, h) => sum + h.allocated_percent, 0)`. -/
def sumPercents (hs : List EHolding) : ℚ :=
  (hs.map (·.allocated_percent)).sum

/-- Editor state: `totalValue` is the session-fixed
`totalPortfolioValue = portfolio.total_investment_amount + (portfolio.cash_balance || 0)`;
`cash` is the `walletAmount` React state. -/
structure EditorState where
  totalValue : ℚ
  holdings : List EHolding
  cash : ℚ
  deriving Repr, DecidableEq

/-- `units = price > 0 ? amount / price : 0`. -/
def unitsFor (amount price : ℚ) : ℚ :=
  if 0 < price then amount / price else 0

/-- The holding-edit and removal operations the editor and the rebalance
modal accept. -/
inductive PortfolioOp where
  | editPercent (i : Nat) (p : ℚ)
  | editAmount (i : Nat) (a : ℚ)
  | swapSecurity (i : Nat) (newPrice : ℚ)
  | addHolding (price : ℚ)
  | sellRemove (i : Nat)
  | rebalanceRemove (i : Nat)
  | modalSetPercent (i : Nat) (p : ℚ)
  | modalSellRemove (i : Nat)
  deriving Repr, DecidableEq

/-- `handleUpdateHolding` with an `allocated_percent` edit on row `i`:
amount and units are re-derived, then `walletAmount` is recomputed as
`totalPortfolioValue - newTotalAllocated`. -/
def applyEditPercent (s : EditorState) (i : Nat) (p : ℚ) : EditorState :=
  match s.holdings[i]? with
  | none => s
  | some h =>
      let amount := s.totalValue * (p / 100)
      let hs := s.holdings.set i ⟨p, amount, unitsFor amount h.price, h.price⟩
      ⟨s.totalValue, hs, s.totalValue - sumAmounts hs⟩

/-- `handleUpdateHolding` with an `allocated_amount` edit on row `i`:
`units = price > 0 ? amount/price : 0`,
`percent = totalValue > 0 ? amount/totalValue*100 : 0`, wallet recomputed. -/
def applyEditAmount (s : EditorState) (i : Nat) (a : ℚ) : EditorState :=
  match s.holdings[i]? with
  | none => s
  | some h =>
      let pct := if 0 < s.totalValue then a / s.totalValue * 100 else 0
      let hs := s.holdings.set i ⟨pct, a, unitsFor a h.price, h.price⟩
      ⟨s.totalValue, hs, s.totalValue - sumAmounts hs⟩

/-- `handleUpdateHolding` with a `security_id` edit on row `i`: the price is
re-resolved and, when the stored amount is positive, units are re-derived
from it; amount and percent are untouched, wallet is recomputed. -/
def applySwapSecurity (s : EditorState) (i : Nat) (newPrice : ℚ) : EditorState :=
  match s.holdings[i]? with
  | none => s
  | some h =>
      let u := if 0 < h.allocated_amount then unitsFor h.allocated_amount newPrice else h.units
      let hs := s.holdings.set i ⟨h.allocated_percent, h.allocated_amount, u, newPrice⟩
      ⟨s.totalValue, hs, s.totalValue - sumAmounts hs⟩

/-- `handleAddHolding`: appends a zeroed row; the wallet is not recomputed. -/
def applyAddHolding (s : EditorState) (price : ℚ) : EditorState :=
  ⟨s.totalValue, s.holdings ++ [⟨0, 0, 0, price⟩], s.cash⟩

/-- `handleSellAndRemove i`: the sold holding's amount is added to the
wallet and the row is dropped. -/
def applySellRemove (s : EditorState) (i : Nat) : EditorState :=
  match s.holdings[i]? with
  | none => s
  | some h => ⟨s.totalValue, s.holdings.eraseIdx i, s.cash + h.allocated_amount⟩

/-- `handleRebalanceRemove i`: the removed percent is redistributed across
the remaining rows with
`factor = (remainingTotalPercent + removed.allocated_percent) / remainingTotalPercent`
when the remaining percent total is positive and rows remain; amounts and
units are re-derived and the wallet recomputed in all cases. -/
def applyRebalanceRemove (s : EditorState) (i : Nat) : EditorState :=
  match s.holdings[i]? with
  | none => s
  | some removed =>
      let rest := s.holdings.eraseIdx i
      let remTotal := sumPercents rest
      let final :=
        if 0 < remTotal ∧ rest ≠ [] then
          rest.map (fun h =>
            let factor := (remTotal + removed.allocated_percent) / remTotal
            let p := h.allocated_percent * factor
            let amount := s.totalValue * (p / 100)
            ⟨p, amount, unitsFor amount h.price, h.price⟩)
        else rest
      ⟨s.totalValue, final, s.totalValue - sumAmounts final⟩

/-- RebalanceModal `handleAllocationChange`: same re-derivation as a percent
edit, with `Cash Proceeds` recomputed from the full holding list. -/
def applyModalSetPercent (s : EditorState) (i : Nat) (p : ℚ) : EditorState :=
  match s.holdings[i]? with
  | none => s
  | some h =>
      let amount := s.totalValue * (p / 100)
      let hs := s.holdings.set i ⟨p, amount, unitsFor amount h.price, h.price⟩
      ⟨s.totalValue, hs, s.totalValue - sumAmounts hs⟩

/-- RebalanceModal `handleSellHolding`: the row is spliced out and the
wallet recomputed as `totalPortfolioValue - newTotalAllocated`. -/
def applyModalSellRemove (s : EditorState) (i : Nat) : EditorState :=
  match s.holdings[i]? with
  | none => s
  | some _ =>
      let hs := s.holdings.eraseIdx i
      ⟨s.totalValue, hs, s.totalValue - sumAmounts hs⟩

/-- One accepted engine operation (none of the handlers has a reject path). -/
def applyOp (s : EditorState) : PortfolioOp → EditorState
  | .editPercent i p => applyEditPercent s i p
  | .editAmount i a => applyEditAmount s i a
  | .swapSecurity i pr => applySwapSecurity s i pr
  | .addHolding pr => applyAddHolding s pr
  | .sellRemove i => applySellRemove s i
  | .rebalanceRemove i => applyRebalanceRemove s i
  | .modalSetPercent i p => applyModalSetPercent s i p
  | .modalSellRemove i => applyModalSellRemove s i

/-- A whole sequence of accepted operations. -/
def applyOps (s : EditorState) (ops : List PortfolioOp) : EditorState :=
  ops.foldl applyOp s

/-- The consistency invariant:
`Σ(holding.allocated_amount) + cash_balance = total_portfolio_value`. -/
def Consistent (s : EditorState) : Prop :=
  sumAmounts s.holdings + s.cash = s.totalValue

/-- The editor's Save Changes guard:
`disabled = totalPercent > 100.01 || walletAmount < -0.01` (ignoring the
in-flight `saving` flag); `saveEnabled` is its negation. -/
def saveEnabled (s : EditorState) : Bool :=
  !(decide (10001/100 < sumPercents s.holdings)) && !(decide (s.cash < -1/100))

/-- The rebalance modal's Save Rebalance guard: `disabled = walletAmount < 0`. -/
def modalSaveEnabled (cash : ℚ) : Bool :=
  !(decide (cash < 0))

/-! ## Stored portfolio and the bulk-commit route (`PUT /api/portfolios/:id/holdings`) -/

structure StoredPortfolio where
  holdings : List EHolding
  total_investment_amount : ℚ
  cash_balance : ℚ
  deriving Repr, DecidableEq

/-- The `PUT /:id/holdings` handler: existing rows are deleted, the request
rows inserted, `total_investment_amount` set to the sum of the proposed
amounts, and `cash_balance` overwritten when supplied; the response is
always `{ status: "ok" }` — there is no validation branch. -/
def putHoldings (p : StoredPortfolio) (reqHoldings : List EHolding)
    (reqCash : Option ℚ) : StoredPortfolio × Bool :=
  (⟨reqHoldings, sumAmounts reqHoldings, reqCash.getD p.cash_balance⟩, true)

/-! ## Client-side questionnaire submission guard
(RiskQuestionnaireView.handleSubmit) -/

/-- `answers[q.id]` on the answers record, as an association-list lookup. -/
def lookupAnswer (answers : List (Nat × Nat)) (qid : Nat) : Option Nat :=
  (answers.find? (fun a => a.1 == qid)).map (·.2)

/-- `questionnaire.questions.filter(q => !answers[q.id]).length > 0` — when
true, `handleSubmit` alerts and returns without submitting. -/
def clientBlocksSubmit (qs : List RQuestion) (answers : List (Nat × Nat)) : Bool :=
  (qs.filter (fun q => (lookupAnswer answers q.id).isNone)).length > 0

/-! ## Spec-side comparison definitions

These restate quantities in the words of the specification, to be compared
with the behaviour extracted from the source above. -/

/-- Spec wording: `raw_score = Σ(weight × selected option score_value)`. -/
def specRawScore (qs : List RQuestion) (rs : List RResponse) : ℚ :=
  (qs.map (fun q => q.weight * ((answeredScore rs q).getD 0))).sum

/-- Spec wording: `max_score = Σ(weight × max option score_value per question)`. -/
def specMaxScore (qs : List RQuestion) : ℚ :=
  (qs.map (fun q => q.weight * maxOptScore q)).sum

/-- Spec wording of the two-boundary classification:
`suitability ≤ 0.35 → Conservative`, `0.35 < suitability ≤ 0.65 → Moderate`,
`suitability > 0.65 → Aggressive`. -/
def specClassify (s : ℚ) : String :=
  if s ≤ 35/100 then "Conservative"
  else if s ≤ 65/100 then "Moderate"
  else "Aggressive"

/-- Spec wording of the knock-out trigger: some ability-partition question
whose text contains "horizon" or "time" has a selected option with
`score_value ≤ 1`. -/
def SpecKnockout (qs : List RQuestion) (rs : List RResponse) : Prop :=
  ∃ q ∈ qs, isAbility q = true ∧ horizonTime q = true ∧
    ∃ v, answeredScore rs q = some v ∧ v ≤ 1

/-! ## Concrete instances used by witnesses and counterexamples -/

/-- The spec's scenario questionnaire: two questions, weights 1, options
scoring 1 and 4. -/
def scenarioQs : List RQuestion :=
  [⟨1, "alpha", 1, [⟨1, 1⟩, ⟨2, 4⟩]⟩, ⟨2, "beta", 1, [⟨1, 1⟩, ⟨2, 4⟩]⟩]

/-- Responses selecting the score-1 option of each scenario question. -/
def scenarioRs : List RResponse :=
  [⟨1, 1⟩, ⟨2, 1⟩]

/-- A partial response list answering only the first scenario question,
with the score-4 option. -/
def partialRs : List RResponse :=
  [⟨1, 2⟩]

/-- A questionnaire with a horizon question (options scoring 0 and 4) and a
willingness question (options scoring 1 and 4). -/
def knockoutQs : List RQuestion :=
  [⟨1, "What is your investment time horizon?", 1, [⟨1, 0⟩, ⟨2, 4⟩]⟩,
   ⟨2, "How do you react to losses?", 1, [⟨1, 1⟩, ⟨2, 4⟩]⟩]

/-- Responses choosing the score-0 horizon option and the score-4
willingness option. -/
def knockoutRs : List RResponse :=
  [⟨1, 1⟩, ⟨2, 2⟩]

/-- A questionnaire with a single willingness question whose only option
scores 4. -/
def willingnessOnlyQs : List RQuestion :=
  [⟨1, "How do you react to losses?", 1, [⟨1, 4⟩]⟩]

/-- The single response selecting that option. -/
def willingnessOnlyRs : List RResponse :=
  [⟨1, 1⟩]

/-- A consistent single-holding editor state: total 100000, nothing
allocated, all value in cash; the holding's security costs 10. -/
def initEditor : EditorState :=
  ⟨100000, [⟨0, 0, 0, 10⟩], 100000⟩

/-- A percent slightly above 100 that the Save Changes guard still accepts
(100.00001). -/
def overPercent : ℚ :=
  10000001/100000

/-- A stored one-holding portfolio: 50% allocated, 50000 in cash. -/
def storedP0 : StoredPortfolio :=
  ⟨[⟨50, 50000, 100, 500⟩], 50000, 50000⟩

/-- An over-allocated bulk-rebalance proposal: 150% in one holding. -/
def overReqHoldings : List EHolding :=
  [⟨150, 150000, 0, 0⟩]

/-- An external allocation set summing to 150 instead of 100. -/
def badAiAllocs : List TargetAllocation :=
  [⟨"Equity", 150, 0, 100⟩]

/-- An assessment computed Conservative but overridden to Aggressive by the
advisor. -/
def overriddenAssessment : Assessment :=
  ⟨"Conservative", some "Aggressive", true, 90⟩

/-! ## Helper lemmas -/

theorem le_foldl_max (l : List ℚ) (a : ℚ) : a ≤ l.foldl max a := by
  induction l generalizing a with
  | nil => exact le_refl a
  | cons x xs ih => exact le_trans (le_max_left a x) (ih (max a x))

theorem mem_le_foldl_max {x : ℚ} (l : List ℚ) (a : ℚ) (hx : x ∈ l) :
    x ≤ l.foldl max a := by
  induction l generalizing a with
  | nil => cases hx
  | cons y ys ih =>
      rcases List.mem_cons.mp hx with rfl | hmem
      · exact le_trans (le_max_right a x) (le_foldl_max ys (max a x))
      · exact ih (max a y) hmem

theorem scoreMax_mem_le {x : ℚ} {l : List ℚ} (hx : x ∈ l) : x ≤ scoreMax l := by
  cases l with
  | nil => cases hx
  | cons y ys =>
      rcases List.mem_cons.mp hx with rfl | hmem
      · exact le_foldl_max ys x
      · exact mem_le_foldl_max ys y hmem

theorem maxOptScore_nonneg {q : RQuestion} (hne : q.options ≠ [])
    (hnn : ∀ o ∈ q.options, 0 ≤ o.score_value) : 0 ≤ maxOptScore q := by
  cases hopts : q.options with
  | nil => exact absurd hopts hne
  | cons o os =>
      have hmem : o.score_value ∈ q.options.map (·.score_value) := by
        rw [hopts]; exact List.mem_map_of_mem _ (List.mem_cons_self o os)
      have h0 : 0 ≤ o.score_value := hnn o (by rw [hopts]; exact List.mem_cons_self o os)
      exact le_trans h0 (scoreMax_mem_le hmem)

theorem respScoreValue_eq_answeredScore (rs : List RResponse) (q : RQuestion) :
    respScoreValue rs q = (answeredScore rs q).getD 0 := by
  unfold respScoreValue answeredScore
  cases findResponse rs q.id with
  | none => rfl
  | some r => rfl

theorem respScoreValue_nonneg {rs : List RResponse} {q : RQuestion}
    (hnn : ∀ o ∈ q.options, 0 ≤ o.score_value) : 0 ≤ respScoreValue rs q := by
  unfold respScoreValue
  cases findResponse rs q.id with
  | none => exact le_refl 0
  | some r =>
      cases hfo : findOption q r with
      | none => simp [hfo]
      | some o =>
          simp only [hfo, Option.map_some, Option.getD_some]
          exact hnn o (List.mem_of_find?_eq_some hfo)

theorem respScoreValue_le_max {rs : List RResponse} {q : RQuestion}
    (hne : q.options ≠ []) (hnn : ∀ o ∈ q.options, 0 ≤ o.score_value) :
    respScoreValue rs q ≤ maxOptScore q := by
  unfold respScoreValue
  cases findResponse rs q.id with
  | none => exact maxOptScore_nonneg hne hnn
  | some r =>
      cases hfo : findOption q r with
      | none => simpa [hfo] using maxOptScore_nonneg hne hnn
      | some o =>
          simp only [hfo, Option.map_some, Option.getD_some]
          exact scoreMax_mem_le (List.mem_map_of_mem _ (List.mem_of_find?_eq_some hfo))

theorem rawTerm_eq (rs : List RResponse) (q : RQuestion) :
    (if answered rs q then respScoreValue rs q * q.weight else 0) =
      q.weight * ((answeredScore rs q).getD 0) := by
  unfold answered answeredScore respScoreValue
  cases findResponse rs q.id with
  | none => simp
  | some r => simp [mul_comm]

theorem raw_eq_spec (qs : List RQuestion) (rs : List RResponse) :
    raw_score qs rs = specRawScore qs rs := by
  unfold raw_score specRawScore
  induction qs with
  | nil => rfl
  | cons q qs ih =>
      simp only [List.map_cons, List.sum_cons, ih, rawTerm_eq]

theorem max_eq_spec (qs : List RQuestion) :
    max_score qs = specMaxScore qs := by
  unfold max_score specMaxScore
  induction qs with
  | nil => rfl
  | cons q qs ih =>
      simp only [List.map_cons, List.sum_cons, ih, mul_comm]

theorem raw_score_nonneg {qs : List RQuestion} (rs : List RResponse)
    (hwf : WellFormed qs) : 0 ≤ raw_score qs rs := by
  unfold raw_score
  apply List.sum_nonneg
  intro x hx
  rcases List.mem_map.mp hx with ⟨q, hq, rfl⟩
  rcases hwf q hq with ⟨hw, _, hnn⟩
  by_cases ha : answered rs q
  · simpa [ha] using mul_nonneg (respScoreValue_nonneg hnn) hw
  · simp [ha]

theorem max_score_nonneg {qs : List RQuestion} (hwf : WellFormed qs) :
    0 ≤ max_score qs := by
  unfold max_score
  apply List.sum_nonneg
  intro x hx
  rcases List.mem_map.mp hx with ⟨q, hq, rfl⟩
  rcases hwf q hq with ⟨hw, hne, hnn⟩
  exact mul_nonneg (maxOptScore_nonneg hne hnn) hw

theorem raw_le_max {qs : List RQuestion} (rs : List RResponse)
    (hwf : WellFormed qs) : raw_score qs rs ≤ max_score qs := by
  unfold raw_score max_score
  apply List.sum_le_sum
  intro q hq
  rcases hwf q hq with ⟨hw, hne, hnn⟩
  by_cases ha : answered rs q
  · simpa [ha] using mul_le_mul_of_nonneg_right (respScoreValue_le_max hne hnn) hw
  · simpa [ha] using mul_nonneg (maxOptScore_nonneg hne hnn) hw

/-- C7. For every complete ResponseSet, the scoring engine returns
`raw_score = Σ(weight × selected option score_value)`,
`max_score = Σ(weight × max option score_value per question)` and
`normalized_score = raw_score / max_score` with 0 when `max_score = 0`
(no division fault), and the normalized score always lies in [0, 1]. -/
theorem scoring_engine_formula_C7 (qs : List RQuestion) (rs : List RResponse)
    (hwf : WellFormed qs) (_hco : Complete qs rs) :
    submitScore qs rs =
      ⟨specRawScore qs rs, specMaxScore qs,
        if specMaxScore qs = 0 then 0 else specRawScore qs rs / specMaxScore qs⟩ ∧
    0 ≤ (submitScore qs rs).normalized ∧ (submitScore qs rs).normalized ≤ 1 := by
  have hraw := raw_eq_spec qs rs
  have hmax := max_eq_spec qs
  have hmn := max_score_nonneg hwf
  have hrn := raw_score_nonneg rs hwf
  have hrm := raw_le_max rs hwf
  refine ⟨?_, ?_, ?_⟩
  · unfold submitScore
    rw [← hraw, ← hmax]
    by_cases h0 : max_score qs = 0
    · simp [h0]
    · have hpos : 0 < max_score qs := lt_of_le_of_ne hmn (Ne.symm h0)
      simp [h0, hpos]
  · unfold submitScore
    by_cases hpos : 0 < max_score qs
    · simpa [hpos] using div_nonneg hrn (le_of_lt hpos)
    · simp [hpos]
  · unfold submitScore
    by_cases hpos : 0 < max_score qs
    · simpa [hpos] using (div_le_one hpos).mpr hrm
    · simp [hpos]

/-- Witness for C7: the spec's two-question scenario (weights 1, max option
score 4, selected options scoring 1 and 1) gives raw 2, max 8, normalized
0.25, inside [0, 1]. -/
theorem scoring_engine_formula_C7_witness :
    WellFormed scenarioQs ∧ Complete scenarioQs scenarioRs ∧
    submitScore scenarioQs scenarioRs = ⟨2, 8, 1/4⟩ ∧
    0 ≤ (submitScore scenarioQs scenarioRs).normalized ∧
    (submitScore scenarioQs scenarioRs).normalized ≤ 1 := by
  have hwf : WellFormed scenarioQs := by
    simp only [WellFormed, scenarioQs, List.forall_mem_cons, List.forall_mem_nil]
    norm_num
    simp
  have hco : Complete scenarioQs scenarioRs := by
    simp only [Complete, scenarioQs, scenarioRs, List.forall_mem_cons, List.forall_mem_nil]
    simp [answeredScore, findResponse, findOption, List.find?]
  have h := scoring_engine_formula_C7 scenarioQs scenarioRs hwf hco
  refine ⟨hwf, hco, ?_, h.2.1, h.2.2⟩
  simp [submitScore, raw_score, max_score, answered, respScoreValue, findResponse,
    findOption, maxOptScore, scoreMax, scenarioQs, scenarioRs, List.find?]
  norm_num

/-! ## C6: incomplete response sets -/

/-- C6 counterexample: the submit route scores the partial response set
that answers only the first scenario question (with the score-4 option):
it produces a ScoreResult — raw 4, max 8, normalized 0.5 — instead of
failing, with the unanswered question contributing zero. -/
theorem incomplete_scored_C6_cex :
    ¬ Complete scenarioQs partialRs ∧
    serverSubmit scenarioQs partialRs = some ⟨4, 8, 1/2⟩ := by
  constructor
  · intro h
    have h2 := h ⟨2, "beta", 1, [⟨1, 1⟩, ⟨2, 4⟩]⟩ (by simp [scenarioQs])
    simp [answeredScore, findResponse, partialRs, List.find?] at h2
  · simp [serverSubmit, submitScore, raw_score, max_score, answered, respScoreValue,
      findResponse, findOption, maxOptScore, scoreMax, scenarioQs, partialRs, List.find?]
    norm_num

/-- C6 (amended). The client-side handler refuses to submit when any
question has no answer; the server-side scoring route, however, scores any
submitted response list: an unanswered question contributes zero to
raw_score while its weighted maximum still counts in max_score, and a
ScoreResult is always produced. -/
theorem incomplete_response_handling_C6 :
    (∀ (qs : List RQuestion) (answers : List (Nat × Nat)),
        (∃ q ∈ qs, lookupAnswer answers q.id = none) →
          clientBlocksSubmit qs answers = true) ∧
    (∀ (qs : List RQuestion) (rs : List RResponse) (q : RQuestion),
        answered rs q = false →
          raw_score (qs ++ [q]) rs = raw_score qs rs ∧
          max_score (qs ++ [q]) = max_score qs + maxOptScore q * q.weight ∧
          serverSubmit (qs ++ [q]) rs = some (submitScore (qs ++ [q]) rs)) := by
  constructor
  · rintro qs answers ⟨q, hq, hnone⟩
    have hmem : q ∈ qs.filter (fun q => (lookupAnswer answers q.id).isNone) :=
      List.mem_filter.mpr ⟨hq, by simp [hnone]⟩
    simp only [clientBlocksSubmit, gt_iff_lt, decide_eq_true_eq]
    exact List.length_pos.mpr (List.ne_nil_of_mem hmem)
  · intro qs rs q hq
    refine ⟨?_, ?_, rfl⟩
    · unfold raw_score
      simp [List.map_append, List.sum_append, hq]
    · unfold max_score
      simp [List.map_append, List.sum_append]

/-- Witness for C6 (amended): with the scenario questionnaire and only the
first question answered, the client blocks submission, and appending the
unanswered question leaves raw_score at 4 while max_score grows to 8. -/
theorem incomplete_response_handling_C6_witness :
    clientBlocksSubmit scenarioQs [(1, 2)] = true ∧
    raw_score scenarioQs partialRs =
      raw_score [⟨1, "alpha", 1, [⟨1, 1⟩, ⟨2, 4⟩]⟩] partialRs ∧
    max_score scenarioQs =
      max_score [⟨1, "alpha", 1, [⟨1, 1⟩, ⟨2, 4⟩]⟩] +
        maxOptScore ⟨2, "beta", 1, [⟨1, 1⟩, ⟨2, 4⟩]⟩ * 1 := by
  have h1 := incomplete_response_handling_C6.1 scenarioQs [(1, 2)]
    ⟨⟨2, "beta", 1, [⟨1, 1⟩, ⟨2, 4⟩]⟩, by simp [scenarioQs],
      by simp [lookupAnswer, List.find?]⟩
  have h2 := incomplete_response_handling_C6.2 [⟨1, "alpha", 1, [⟨1, 1⟩, ⟨2, 4⟩]⟩]
    partialRs ⟨2, "beta", 1, [⟨1, 1⟩, ⟨2, 4⟩]⟩
    (by simp [answered, findResponse, partialRs, List.find?])
  exact ⟨h1, h2.1, h2.2.1⟩

/-! ## C2: knock-out rule and two-boundary classification -/

theorem horizonTime_imp_isAbility {q : RQuestion} (h : horizonTime q = true) :
    isAbility q = true := by
  simp only [horizonTime, Bool.or_eq_true] at h
  simp only [isAbility, Bool.or_eq_true]
  tauto

theorem knockoutPred_iff (rs : List RResponse) (q : RQuestion) :
    knockoutPred rs q = true ↔
      (isAbility q = true ∧ horizonTime q = true ∧
        ∃ v, answeredScore rs q = some v ∧ v ≤ 1) := by
  unfold knockoutPred answeredScore
  cases h1 : findResponse rs q.id with
  | none => simp [h1]
  | some r =>
      cases h2 : findOption q r with
      | none => simp [h1, h2]
      | some o => simp [h1, h2, and_assoc]

theorem knockoutFlag_iff (qs : List RQuestion) (rs : List RResponse) :
    knockoutFlag qs rs = true ↔ SpecKnockout qs rs := by
  unfold knockoutFlag SpecKnockout
  rw [List.any_eq_true]
  constructor
  · rintro ⟨q, hq, hp⟩
    exact ⟨q, hq, (knockoutPred_iff rs q).mp hp⟩
  · rintro ⟨q, hq, hcond⟩
    exact ⟨q, hq, (knockoutPred_iff rs q).mpr hcond⟩

/-- C2. For a complete ResponseSet: when some ability-partition question
containing "horizon" or "time" has a selected option scoring ≤ 1, the
knock-out flag is set and the category is forced to Conservative; otherwise
the category follows the two fixed boundaries on
`suitability = min(willingness_score, ability_score) / 100`
(≤ 0.35 Conservative, ≤ 0.65 Moderate, above Aggressive). -/
theorem suitability_classification_C2 (qs : List RQuestion) (rs : List RResponse)
    (_hco : Complete qs rs) :
    (SpecKnockout qs rs →
       knockoutFlag qs rs = true ∧ risk_category qs rs = "Conservative") ∧
    (¬ SpecKnockout qs rs →
       risk_category qs rs =
         specClassify (min (willingness_score qs rs) (ability_score qs rs) / 100)) := by
  constructor
  · intro h
    have hflag : knockoutFlag qs rs = true := (knockoutFlag_iff qs rs).mpr h
    exact ⟨hflag, by simp [risk_category, hflag]⟩
  · intro h
    have hflag : knockoutFlag qs rs = false := by
      have : ¬ knockoutFlag qs rs = true := fun hh => h ((knockoutFlag_iff qs rs).mp hh)
      simpa using this
    unfold risk_category specClassify
    rw [hflag]
    simp only [Bool.false_eq_true, if_false]
    set s := min (willingness_score qs rs) (ability_score qs rs) / 100 with hs
    rcases le_or_lt s (35/100) with hA | hA
    · have c1 : ¬(35/100 < s ∧ s ≤ 65/100) := fun hc => absurd hA (not_le.mpr hc.1)
      have c2 : ¬(65/100 < s) := not_lt.mpr (le_trans hA (by norm_num))
      rw [if_neg c1, if_neg c2, if_pos hA]
    · rcases le_or_lt s (65/100) with hB | hB
      · rw [if_pos ⟨hA, hB⟩, if_neg (not_le.mpr hA), if_pos hB]
      · have c1 : ¬(35/100 < s ∧ s ≤ 65/100) := fun hc => absurd hB (not_lt.mpr hc.2)
        rw [if_neg c1, if_pos hB, if_neg (not_le.mpr hA), if_neg (not_le.mpr hB)]

/-- Witness for C2: the horizon question answered with a score-0 option
triggers the knock-out and forces Conservative although the willingness
answer has the top score. -/
theorem suitability_classification_C2_witness :
    Complete knockoutQs knockoutRs ∧ SpecKnockout knockoutQs knockoutRs ∧
    knockoutFlag knockoutQs knockoutRs = true ∧
    risk_category knockoutQs knockoutRs = "Conservative" := by
  have hco : Complete knockoutQs knockoutRs := by
    simp only [Complete, knockoutQs, knockoutRs, List.forall_mem_cons, List.forall_mem_nil]
    simp [answeredScore, findResponse, findOption, List.find?]
  have hko : SpecKnockout knockoutQs knockoutRs := by
    refine ⟨⟨1, "What is your investment time horizon?", 1, [⟨1, 0⟩, ⟨2, 4⟩]⟩,
      by simp [knockoutQs], by decide, by decide, 0, ?_, by norm_num⟩
    simp [answeredScore, findResponse, findOption, knockoutRs, List.find?]
  have h := (suitability_classification_C2 knockoutQs knockoutRs hco).1 hko
  exact ⟨hco, hko, h.1, h.2⟩

/-! ## C10: degenerate keyword partitions -/

theorem willingness_raw_nonneg {qs : List RQuestion} (rs : List RResponse)
    (hwf : WellFormed qs) : 0 ≤ willingness_raw qs rs := by
  unfold willingness_raw
  apply List.sum_nonneg
  intro x hx
  rcases List.mem_map.mp hx with ⟨q, hq, rfl⟩
  rcases hwf q hq with ⟨hw, _, hnn⟩
  by_cases hc : answered rs q && !isAbility q
  · simpa [hc] using mul_nonneg (respScoreValue_nonneg hnn) hw
  · simp [hc]

theorem ability_raw_nonneg {qs : List RQuestion} (rs : List RResponse)
    (hwf : WellFormed qs) : 0 ≤ ability_raw qs rs := by
  unfold ability_raw
  apply List.sum_nonneg
  intro x hx
  rcases List.mem_map.mp hx with ⟨q, hq, rfl⟩
  rcases hwf q hq with ⟨hw, _, hnn⟩
  by_cases hc : answered rs q && isAbility q
  · simpa [hc] using mul_nonneg (respScoreValue_nonneg hnn) hw
  · simp [hc]

theorem willingness_score_nonneg {qs : List RQuestion} (rs : List RResponse)
    (hwf : WellFormed qs) : 0 ≤ willingness_score qs rs := by
  unfold willingness_score
  by_cases hpos : 0 < willingness_max qs rs
  · simpa [hpos] using
      mul_nonneg (div_nonneg (willingness_raw_nonneg rs hwf) (le_of_lt hpos))
        (by norm_num : (0:ℚ) ≤ 100)
  · simp [hpos]

theorem ability_score_nonneg {qs : List RQuestion} (rs : List RResponse)
    (hwf : WellFormed qs) : 0 ≤ ability_score qs rs := by
  unfold ability_score
  by_cases hpos : 0 < ability_max qs rs
  · simpa [hpos] using
      mul_nonneg (div_nonneg (ability_raw_nonneg rs hwf) (le_of_lt hpos))
        (by norm_num : (0:ℚ) ≤ 100)
  · simp [hpos]

theorem ability_score_of_no_ability {qs : List RQuestion} (rs : List RResponse)
    (h : ∀ q ∈ qs, isAbility q = false) : ability_score qs rs = 0 := by
  have hmax : ability_max qs rs = 0 := by
    unfold ability_max
    apply List.sum_eq_zero
    intro x hx
    rcases List.mem_map.mp hx with ⟨q, hq, rfl⟩
    simp [h q hq]
  simp [ability_score, hmax]

theorem willingness_score_of_all_ability {qs : List RQuestion} (rs : List RResponse)
    (h : ∀ q ∈ qs, isAbility q = true) : willingness_score qs rs = 0 := by
  have hmax : willingness_max qs rs = 0 := by
    unfold willingness_max
    apply List.sum_eq_zero
    intro x hx
    rcases List.mem_map.mp hx with ⟨q, hq, rfl⟩
    simp [h q hq]
  simp [willingness_score, hmax]

theorem risk_category_of_zero_min {qs : List RQuestion} {rs : List RResponse}
    (h : min (willingness_score qs rs) (ability_score qs rs) = 0) :
    risk_category qs rs = "Conservative" := by
  unfold risk_category
  by_cases hflag : knockoutFlag qs rs
  · simp [hflag]
  · simp only [hflag, Bool.false_eq_true, if_false, h]
    norm_num

/-- C10. When the questionnaire's keyword partition is degenerate — no
question matches the ability keyword set, or every question does — the
empty partition scores 0, so the minimum of willingness and ability is 0
and the computed category is Conservative no matter how the questions are
answered. -/
theorem degenerate_partition_C10 (qs : List RQuestion) (rs : List RResponse)
    (hwf : WellFormed qs) (_hco : Complete qs rs)
    (hpart : (∀ q ∈ qs, isAbility q = false) ∨ (∀ q ∈ qs, isAbility q = true)) :
    min (willingness_score qs rs) (ability_score qs rs) = 0 ∧
    risk_category qs rs = "Conservative" := by
  have hmin : min (willingness_score qs rs) (ability_score qs rs) = 0 := by
    rcases hpart with hno | hall
    · rw [ability_score_of_no_ability rs hno]
      exact min_eq_right (willingness_score_nonneg rs hwf)
    · rw [willingness_score_of_all_ability rs hall]
      exact min_eq_left (ability_score_nonneg rs hwf)
  exact ⟨hmin, risk_category_of_zero_min hmin⟩

/-- Witness for C10: a questionnaire consisting of a single willingness
question answered with its top-scoring option is still classified
Conservative, since the empty ability partition pins the minimum at 0. -/
theorem degenerate_partition_C10_witness :
    WellFormed willingnessOnlyQs ∧ Complete willingnessOnlyQs willingnessOnlyRs ∧
    (∀ q ∈ willingnessOnlyQs, isAbility q = false) ∧
    min (willingness_score willingnessOnlyQs willingnessOnlyRs)
        (ability_score willingnessOnlyQs willingnessOnlyRs) = 0 ∧
    risk_category willingnessOnlyQs willingnessOnlyRs = "Conservative" := by
  have hwf : WellFormed willingnessOnlyQs := by
    simp only [WellFormed, willingnessOnlyQs, List.forall_mem_cons, List.forall_mem_nil]
    norm_num
  have hco : Complete willingnessOnlyQs willingnessOnlyRs := by
    simp only [Complete, willingnessOnlyQs, willingnessOnlyRs, List.forall_mem_cons,
      List.forall_mem_nil]
    simp [answeredScore, findResponse, findOption, List.find?]
  have hno : ∀ q ∈ willingnessOnlyQs, isAbility q = false := by
    intro q hq
    simp only [willingnessOnlyQs, List.mem_cons, List.not_mem_nil, or_false] at hq
    subst hq
    decide
  have h := degenerate_partition_C10 willingnessOnlyQs willingnessOnlyRs hwf hco (Or.inl hno)
  exact ⟨hwf, hco, hno, h.1, h.2⟩

/-! ## C8: boundary-distance sub-score -/

theorem ratio_bounds {x c : ℚ} (hc : 0 < c) (hx0 : 0 ≤ x) (hxc : x ≤ c) :
    0 ≤ x / c * 100 ∧ x / c * 100 ≤ 100 := by
  constructor
  · exact mul_nonneg (div_nonneg hx0 (le_of_lt hc)) (by norm_num)
  · have h1 : x / c ≤ 1 := (div_le_one hc).mpr hxc
    calc x / c * 100 ≤ 1 * 100 :=
          mul_le_mul_of_nonneg_right h1 (by norm_num)
      _ = 100 := one_mul 100

/-- C8. The boundary-distance sub-score follows the three-branch formula of
the client submit handler and stays within [0, 100] for every normalized
score in [0, 1]. -/
theorem boundary_distance_C8 (ns : ℚ) (h0 : 0 ≤ ns) (h1 : ns ≤ 1) :
    (ns ≤ 35/100 → boundaryDistance ns = (35/100 - ns) / (35/100) * 100) ∧
    (35/100 < ns → ns ≤ 65/100 →
      boundaryDistance ns = min (ns - 35/100) (65/100 - ns) / (15/100) * 100) ∧
    (65/100 < ns → boundaryDistance ns = (ns - 65/100) / (35/100) * 100) ∧
    0 ≤ boundaryDistance ns ∧ boundaryDistance ns ≤ 100 := by
  have hbounds : 0 ≤ boundaryDistance ns ∧ boundaryDistance ns ≤ 100 := by
    unfold boundaryDistance
    split_ifs with hA hB
    · exact ratio_bounds (by norm_num) (by linarith) (by linarith)
    · have hminle : min (ns - 35/100) (65/100 - ns) ≤ 15/100 := by
        have ha := min_le_left (ns - 35/100) (65/100 - ns)
        have hb := min_le_right (ns - 35/100) (65/100 - ns)
        linarith
      have hmin0 : 0 ≤ min (ns - 35/100) (65/100 - ns) :=
        le_min (by linarith [not_le.mp hA]) (by linarith)
      exact ratio_bounds (by norm_num) hmin0 hminle
    · exact ratio_bounds (by norm_num) (by linarith [not_le.mp hB]) (by linarith)
  refine ⟨?_, ?_, ?_, hbounds.1, hbounds.2⟩
  · intro h
    simp only [boundaryDistance, if_pos h]
  · intro ha hb
    simp only [boundaryDistance, if_neg (not_le.mpr ha), if_pos hb]
  · intro h
    have ha : ¬ ns ≤ 35/100 := not_le.mpr (lt_trans (by norm_num) h)
    simp only [boundaryDistance, if_neg ha, if_neg (not_le.mpr h)]

/-- Witness for C8: at normalized score 0.25 the Conservative branch gives
(0.35 − 0.25)/0.35 × 100 = 200/7 ≈ 28.6, inside [0, 100]. -/
theorem boundary_distance_C8_witness :
    ((0:ℚ) ≤ 1/4 ∧ (1/4:ℚ) ≤ 1) ∧
    boundaryDistance (1/4) = (35/100 - 1/4) / (35/100) * 100 ∧
    boundaryDistance (1/4) = 200/7 ∧
    0 ≤ boundaryDistance (1/4) ∧ boundaryDistance (1/4) ≤ 100 := by
  have h := boundary_distance_C8 (1/4) (by norm_num) (by norm_num)
  refine ⟨⟨by norm_num, by norm_num⟩, h.1 (by norm_num), ?_, h.2.2.2.1, h.2.2.2.2⟩
  rw [h.1 (by norm_num)]
  norm_num

/-! ## C5: IPS eligibility gate -/

/-- C5. An assessment is accepted for IPS generation precisely when it is
advisor-finalized and its confidence score, normalized by
`score > 1 ? score/100 : score`, is at least 0.65; the advisor-side
`isEligibleForIPS` check agrees with the generate route's decision. -/
theorem eligibility_gate_C5 (f : Bool) (s : ℚ) :
    (generateEligible f s = true ↔ (f = true ∧ 65/100 ≤ normalizeConfidence s)) ∧
    isEligibleForIPS f s = generateEligible f s := by
  constructor
  · cases f <;> simp [generateEligible, not_lt]
  · cases f with
    | false => simp [generateEligible, isEligibleForIPS]
    | true =>
        simp only [generateEligible, isEligibleForIPS, normalizeConfidence, Bool.true_and]
        by_cases h : 1 < s
        · simp only [if_pos h]
          have hiff : s / 100 < 65/100 ↔ s < 65 := by
            constructor <;> intro <;> linarith
          rw [← decide_not, decide_eq_decide, hiff, not_lt]
        · simp only [if_neg h]
          rw [← decide_not, decide_eq_decide, not_lt]

/-! ## C9: advisor override propagation -/

/-- C9 counterexample: an assessment computed Conservative but overridden
to Aggressive; the generate route still uses the computed category and thus
the Conservative allocation model, while the dashboard shows the override. -/
theorem override_preference_C9_cex :
    overriddenAssessment.advisor_override_category = some "Aggressive" ∧
    genCategory overriddenAssessment = "Conservative" ∧
    genCategory overriddenAssessment ≠ "Aggressive" ∧
    displayCategory overriddenAssessment = "Aggressive" ∧
    ALLOCATION_MODELS (genCategory overriddenAssessment) =
      some ⟨30, 60, 10, "Semi-Annual"⟩ := by
  refine ⟨rfl, rfl, by decide, rfl, rfl⟩

/-- C9 (amended). The dashboard display prefers a recorded advisor
override, but IPS generation ignores it and indexes the allocation table by
the computed `risk_category`. -/
theorem override_preference_C9 (a : Assessment) (c : String)
    (h : a.advisor_override_category = some c) :
    displayCategory a = c ∧ genCategory a = a.risk_category := by
  simp [displayCategory, genCategory, h]

/-- Witness for C9 (amended): the overridden assessment displays
Aggressive while generation keeps the computed category. -/
theorem override_preference_C9_witness :
    displayCategory overriddenAssessment = "Aggressive" ∧
    genCategory overriddenAssessment = overriddenAssessment.risk_category :=
  override_preference_C9 overriddenAssessment "Aggressive" rfl

/-! ## C4: allocation sum validation -/

/-- C4 counterexample: a non-empty externally generated allocation set
summing to 150 is persisted as-is by the generate route — it is not
rejected in favour of the baseline, and its sum is far outside 100 ± 0.5. -/
theorem allocation_sum_C4_cex :
    allocationsToPersist badAiAllocs ⟨30, 60, 10, "Semi-Annual"⟩ = badAiAllocs ∧
    sumTargets badAiAllocs = 150 ∧
    ¬ |sumTargets badAiAllocs - 100| ≤ 1/2 := by
  refine ⟨rfl, ?_, ?_⟩
  · simp [sumTargets, badAiAllocs]
  · simp only [sumTargets, badAiAllocs, List.map_cons, List.map_nil, List.sum_cons,
      List.sum_nil]
    norm_num [abs_of_nonneg]

/-- C4 (amended). The baseline lookup-table allocations are used only when
the externally generated allocation list is empty; any non-empty external
set is persisted without a sum-to-100 check, and the /save route persists
request allocations unvalidated. The baseline sets themselves do sum
to 100. -/
theorem allocation_persistence_C4 :
    (∀ (ai : List TargetAllocation) (m : AllocationModel),
        ai ≠ [] → allocationsToPersist ai m = ai) ∧
    (∀ m : AllocationModel, allocationsToPersist [] m = baselineAllocations m) ∧
    (∀ (name : String) (m : AllocationModel),
        ALLOCATION_MODELS name = some m → sumTargets (baselineAllocations m) = 100) ∧
    (∀ reqAllocs : List TargetAllocation, saveAllocations reqAllocs = reqAllocs) := by
  refine ⟨?_, ?_, ?_, fun _ => rfl⟩
  · intro ai m h
    have hpos : 0 < ai.length := List.length_pos.mpr h
    simp [allocationsToPersist, hpos]
  · intro m
    simp [allocationsToPersist]
  · intro name m h
    unfold ALLOCATION_MODELS at h
    split at h <;>
      first
        | (simp only [Option.some.injEq] at h; subst h;
           norm_num [sumTargets, baselineAllocations])
        | cases h

/-- Witness for C4 (amended): the bad external set is kept verbatim, the
empty set falls back to the Conservative baseline, and that baseline sums
to 100. -/
theorem allocation_persistence_C4_witness :
    allocationsToPersist badAiAllocs ⟨30, 60, 10, "Semi-Annual"⟩ = badAiAllocs ∧
    allocationsToPersist [] ⟨30, 60, 10, "Semi-Annual"⟩ =
      baselineAllocations ⟨30, 60, 10, "Semi-Annual"⟩ ∧
    sumTargets (baselineAllocations ⟨30, 60, 10, "Semi-Annual"⟩) = 100 :=
  ⟨allocation_persistence_C4.1 badAiAllocs ⟨30, 60, 10, "Semi-Annual"⟩ (by simp [badAiAllocs]),
   allocation_persistence_C4.2.1 ⟨30, 60, 10, "Semi-Annual"⟩,
   allocation_persistence_C4.2.2.1 "Conservative" ⟨30, 60, 10, "Semi-Annual"⟩ rfl⟩

/-! ## C3: bulk-rebalance commit validation -/

/-- C3 counterexample: a proposal with Σ percent = 150 and a negative cash
balance is committed by `PUT /:id/holdings` with an ok response — the
stored state is replaced, not left unchanged. -/
theorem bulk_rebalance_guard_C3_cex :
    (putHoldings storedP0 overReqHoldings (some (-100))).2 = true ∧
    (putHoldings storedP0 overReqHoldings (some (-100))).1.holdings = overReqHoldings ∧
    (putHoldings storedP0 overReqHoldings (some (-100))).1.cash_balance = -100 ∧
    storedP0.cash_balance = 50000 ∧
    sumPercents overReqHoldings = 150 := by
  refine ⟨rfl, rfl, rfl, rfl, ?_⟩
  simp [sumPercents, overReqHoldings]

/-- C3 (amended). The server commit endpoint performs no validation: it
always answers ok and replaces the stored holdings, sum of amounts and cash
with the proposal. The refusal exists only client-side: the editor's Save
button is disabled when Σ percent exceeds 100.01 or cash is below −0.01,
and the rebalance modal's save is disabled when cash is negative. -/
theorem bulk_rebalance_guard_C3 :
    (∀ (p : StoredPortfolio) (hs : List EHolding) (c : Option ℚ),
        (putHoldings p hs c).2 = true ∧
        (putHoldings p hs c).1 = ⟨hs, sumAmounts hs, c.getD p.cash_balance⟩) ∧
    (∀ s : EditorState, s.cash < -1/100 → saveEnabled s = false) ∧
    (∀ s : EditorState, 10001/100 < sumPercents s.holdings → saveEnabled s = false) ∧
    (∀ c : ℚ, c < 0 → modalSaveEnabled c = false) := by
  refine ⟨fun p hs c => ⟨rfl, rfl⟩, ?_, ?_, ?_⟩
  · intro s h
    simp [saveEnabled, h]
  · intro s h
    simp [saveEnabled, h]
  · intro c h
    simp [modalSaveEnabled, h]

/-- Witness for C3 (amended): the over-allocated negative-cash proposal is
committed verbatim server-side, while both client guards refuse it. -/
theorem bulk_rebalance_guard_C3_witness :
    (putHoldings storedP0 overReqHoldings (some (-100))).2 = true ∧
    (putHoldings storedP0 overReqHoldings (some (-100))).1 =
      ⟨overReqHoldings, sumAmounts overReqHoldings, -100⟩ ∧
    saveEnabled ⟨100000, overReqHoldings, -100⟩ = false ∧
    modalSaveEnabled (-100) = false := by
  refine ⟨(bulk_rebalance_guard_C3.1 storedP0 overReqHoldings (some (-100))).1,
    (bulk_rebalance_guard_C3.1 storedP0 overReqHoldings (some (-100))).2, ?_, ?_⟩
  · exact bulk_rebalance_guard_C3.2.1 ⟨100000, overReqHoldings, -100⟩ (by norm_num)
  · exact bulk_rebalance_guard_C3.2.2.2 (-100) (by norm_num)

/-! ## C1: the percent/amount/cash consistency invariant -/

theorem sum_map_eraseIdx {α : Type} (f : α → ℚ) (l : List α) :
    ∀ (i : Nat) (x : α), l[i]? = some x →
      ((l.eraseIdx i).map f).sum = (l.map f).sum - f x := by
  induction l with
  | nil => intro i x h; simp at h
  | cons y ys ih =>
      intro i x h
      cases i with
      | zero =>
          simp only [List.getElem?_cons_zero, Option.some.injEq] at h
          subst h
          simp [List.eraseIdx]
      | succ n =>
          simp only [List.getElem?_cons_succ] at h
          simp only [List.eraseIdx_cons_succ, List.map_cons, List.sum_cons, ih n x h]
          ring

theorem applyOp_consistent (s : EditorState) (op : PortfolioOp)
    (h : Consistent s) : Consistent (applyOp s op) := by
  cases op with
  | editPercent i p =>
      simp only [applyOp, applyEditPercent]
      cases hi : s.holdings[i]? with
      | none => exact h
      | some hld => simp only [Consistent]; ring
  | editAmount i a =>
      simp only [applyOp, applyEditAmount]
      cases hi : s.holdings[i]? with
      | none => exact h
      | some hld => simp only [Consistent]; ring
  | swapSecurity i pr =>
      simp only [applyOp, applySwapSecurity]
      cases hi : s.holdings[i]? with
      | none => exact h
      | some hld => simp only [Consistent]; ring
  | addHolding pr =>
      simp only [applyOp, applyAddHolding, Consistent, sumAmounts, List.map_append]
      simp only [Consistent, sumAmounts] at h
      simp [h]
  | sellRemove i =>
      simp only [applyOp, applySellRemove]
      cases hi : s.holdings[i]? with
      | none => exact h
      | some hld =>
          simp only [Consistent, sumAmounts] at h ⊢
          rw [sum_map_eraseIdx (·.allocated_amount) s.holdings i hld hi]
          linarith
  | rebalanceRemove i =>
      simp only [applyOp, applyRebalanceRemove]
      cases hi : s.holdings[i]? with
      | none => exact h
      | some hld => simp only [Consistent]; ring
  | modalSetPercent i p =>
      simp only [applyOp, applyModalSetPercent]
      cases hi : s.holdings[i]? with
      | none => exact h
      | some hld => simp only [Consistent]; ring
  | modalSellRemove i =>
      simp only [applyOp, applyModalSellRemove]
      cases hi : s.holdings[i]? with
      | none => exact h
      | some hld => simp only [Consistent]; ring

theorem applyOp_totalValue (s : EditorState) (op : PortfolioOp) :
    (applyOp s op).totalValue = s.totalValue := by
  cases op with
  | editPercent i p =>
      simp only [applyOp, applyEditPercent]
      cases hi : s.holdings[i]? <;> rfl
  | editAmount i a =>
      simp only [applyOp, applyEditAmount]
      cases hi : s.holdings[i]? <;> rfl
  | swapSecurity i pr =>
      simp only [applyOp, applySwapSecurity]
      cases hi : s.holdings[i]? <;> rfl
  | addHolding pr => rfl
  | sellRemove i =>
      simp only [applyOp, applySellRemove]
      cases hi : s.holdings[i]? <;> rfl
  | rebalanceRemove i =>
      simp only [applyOp, applyRebalanceRemove]
      cases hi : s.holdings[i]? <;> rfl
  | modalSetPercent i p =>
      simp only [applyOp, applyModalSetPercent]
      cases hi : s.holdings[i]? <;> rfl
  | modalSellRemove i =>
      simp only [applyOp, applyModalSellRemove]
      cases hi : s.holdings[i]? <;> rfl

/-- C1 counterexample: from a consistent portfolio (total 100000, all in
cash), the percent edit to 100.00001% is accepted by the engine — the edit
handlers have no reject path and even the Save Changes guard stays enabled —
yet the resulting cash balance is −0.01 < 0. -/
theorem portfolio_invariant_C1_cex :
    Consistent initEditor ∧
    saveEnabled (applyOps initEditor [.editPercent 0 overPercent]) = true ∧
    (applyOps initEditor [.editPercent 0 overPercent]).cash = -1/100 ∧
    (applyOps initEditor [.editPercent 0 overPercent]).cash < 0 := by
  have hcons : Consistent initEditor := by
    simp [Consistent, initEditor, sumAmounts]
  have heval : applyOps initEditor [.editPercent 0 overPercent] =
      ⟨100000, [⟨overPercent, 10000001/100, 10000001/1000, 10⟩], -1/100⟩ := by
    simp only [applyOps, List.foldl_cons, List.foldl_nil, applyOp, applyEditPercent,
      initEditor, List.getElem?_cons_zero, List.set, sumAmounts, unitsFor,
      List.map_cons, List.map_nil, List.sum_cons, List.sum_nil, overPercent]
    norm_num
  refine ⟨hcons, ?_, ?_, ?_⟩
  · rw [heval]
    simp only [saveEnabled, sumPercents, List.map_cons, List.map_nil, List.sum_cons,
      List.sum_nil, overPercent]
    norm_num
  · rw [heval]
  · rw [heval]
    norm_num

/-- C1 (amended). After any sequence of accepted operations starting from a
consistent portfolio, Σ(allocated_amount) + cash equals the fixed total
portfolio value exactly (hence within any floating-point tolerance), and
the total portfolio value itself never changes; cash non-negativity,
however, is not maintained by the engine (see the counterexample). -/
theorem portfolio_invariant_C1 (s : EditorState) (ops : List PortfolioOp)
    (h : Consistent s) :
    Consistent (applyOps s ops) ∧ (applyOps s ops).totalValue = s.totalValue := by
  induction ops generalizing s with
  | nil => exact ⟨h, rfl⟩
  | cons op ops ih =>
      simp only [applyOps, List.foldl_cons] at *
      have h1 := applyOp_consistent s op h
      have h2 := applyOp_totalValue s op
      have h3 := ih (applyOp s op) h1
      exact ⟨h3.1, h3.2.trans h2⟩

/-- Witness for C1 (amended): the spec's §8 scenario — set the holding to
60%, then sell-and-remove it — keeps Σ(amount) + cash = 100000 at every
step and ends with everything back in cash. -/
theorem portfolio_invariant_C1_witness :
    Consistent initEditor ∧
    Consistent (applyOps initEditor [.editPercent 0 60, .sellRemove 0]) ∧
    (applyOps initEditor [.editPercent 0 60, .sellRemove 0]).totalValue = 100000 ∧
    (applyOps initEditor [.editPercent 0 60, .sellRemove 0]).cash = 100000 := by
  have hcons : Consistent initEditor := by
    simp [Consistent, initEditor, sumAmounts]
  have h := portfolio_invariant_C1 initEditor [.editPercent 0 60, .sellRemove 0] hcons
  refine ⟨hcons, h.1, h.2, ?_⟩
  simp only [applyOps, List.foldl_cons, List.foldl_nil, applyOp, applyEditPercent,
    applySellRemove, initEditor, List.getElem?_cons_zero, List.set, sumAmounts,
    unitsFor, List.map_cons, List.map_nil, List.sum_cons, List.sum_nil,
    List.eraseIdx]
  norm_num

end RiskProfiling

